import Mathlib

/-!
Verification development for the feedback dashboard (customer satisfaction
ratings).  The definitions below are a shallow embedding of the TypeScript
source: `AdminPanel`'s aggregation helpers (`calculateAverages`,
`getRecurrentCustomers`, `getRatingDistribution`, `filteredAndSortedFeedbacks`,
`exportToCSV`), `CustomerForm`'s `validateForm`/`handleSubmit`, and the
realtime insert-notification handler.  JavaScript numbers are modelled as
`Int`/`ℚ`; `Math.round` is `⌊q + 1/2⌋` (half rounds toward +∞, as in JS).
-/

/-- A feedback record, mirroring the `Feedback` interface of the admin panel.
`created_at` is the numeric timestamp (`new Date(created_at).getTime()`);
`comentario` is `Option String` because the form inserts `comment || null`. -/
structure Feedback where
  id : String
  created_at : Int
  nome : String
  cpf : String
  telefone : String
  instagram : String
  qualidade_comida : Int
  atendimento : Int
  tempo_espera : Int
  higiene_limpeza : Int
  custo_beneficio : Int
  ambiente_conforto : Int
  comentario : Option String
deriving DecidableEq, Repr

/-- A criterion score is valid when it is an integer star value in `[1,5]`. -/
def validScore (s : Int) : Prop := 1 ≤ s ∧ s ≤ 5

instance (s : Int) : Decidable (validScore s) := by unfold validScore; infer_instance

/-- A record is valid when all six criterion scores are in `[1,5]` (§3 of the
data model; enforced upstream of the store). -/
def validFeedback (f : Feedback) : Prop :=
  validScore f.qualidade_comida ∧ validScore f.atendimento ∧
  validScore f.tempo_espera ∧ validScore f.higiene_limpeza ∧
  validScore f.custo_beneficio ∧ validScore f.ambiente_conforto

instance (f : Feedback) : Decidable (validFeedback f) := by
  unfold validFeedback; infer_instance

/-- Sum of the six criterion scores of one record, as it appears verbatim in
`getRatingDistribution`, `filteredAndSortedFeedbacks` and the record cards. -/
def scoreSum (f : Feedback) : Int :=
  f.qualidade_comida + f.atendimento + f.tempo_espera +
  f.higiene_limpeza + f.custo_beneficio + f.ambiente_conforto

/-- Per-record overall average: `(sum of the six scores) / 6`, unrounded. -/
def avgRating (f : Feedback) : ℚ := (scoreSum f : ℚ) / 6

/-- JavaScript `Math.round`: round to nearest integer, `.5` rounds up. -/
def jsRound (q : ℚ) : Int := ⌊q + 1 / 2⌋

/-- The histogram bucket a record falls in: `Math.round(scoreSum / 6)`. -/
def bucketOf (f : Feedback) : Int := jsRound (avgRating f)

/-- Accumulator of `calculateAverages`' `reduce`: the six running sums. -/
structure Totals where
  qualidade_comida : Int
  atendimento : Int
  tempo_espera : Int
  higiene_limpeza : Int
  custo_beneficio : Int
  ambiente_conforto : Int
deriving DecidableEq, Repr

/-- One step of the `reduce` in `calculateAverages`. -/
def addTotals (acc : Totals) (f : Feedback) : Totals :=
  { qualidade_comida := acc.qualidade_comida + f.qualidade_comida
    atendimento := acc.atendimento + f.atendimento
    tempo_espera := acc.tempo_espera + f.tempo_espera
    higiene_limpeza := acc.higiene_limpeza + f.higiene_limpeza
    custo_beneficio := acc.custo_beneficio + f.custo_beneficio
    ambiente_conforto := acc.ambiente_conforto + f.ambiente_conforto }

/-- The `totals` object of `calculateAverages`: fold from the all-zero seed. -/
def totalsOf (l : List Feedback) : Totals :=
  l.foldl addTotals ⟨0, 0, 0, 0, 0, 0⟩

/-- The six per-criterion averages (the `averages` object, when non-empty). -/
structure Averages where
  qualidade_comida : ℚ
  atendimento : ℚ
  tempo_espera : ℚ
  higiene_limpeza : ℚ
  custo_beneficio : ℚ
  ambiente_conforto : ℚ
deriving DecidableEq, Repr

/-- `calculateAverages`: returns `{}` (here `none`) for an empty list, else
each criterion's running sum divided by the record count. -/
def calculateAverages (l : List Feedback) : Option Averages :=
  if l.length = 0 then none
  else
    let t := totalsOf l
    some
      { qualidade_comida := (t.qualidade_comida : ℚ) / l.length
        atendimento := (t.atendimento : ℚ) / l.length
        tempo_espera := (t.tempo_espera : ℚ) / l.length
        higiene_limpeza := (t.higiene_limpeza : ℚ) / l.length
        custo_beneficio := (t.custo_beneficio : ℚ) / l.length
        ambiente_conforto := (t.ambiente_conforto : ℚ) / l.length }

/-- The dashboard `overallAverage`: `Object.values(averages)` summed and
divided by its length (6 when non-empty), `0` when `averages` is empty. -/
def overallAverage (l : List Feedback) : ℚ :=
  match calculateAverages l with
  | none => 0
  | some a =>
      (a.qualidade_comida + a.atendimento + a.tempo_espera +
       a.higiene_limpeza + a.custo_beneficio + a.ambiente_conforto) / 6

/-- One step of the `reduce` building `cpfCounts`: bump the count stored under
key `c`, inserting the key (at the end, JS object insertion order) if new. -/
def bump (acc : List (String × Nat)) (c : String) : List (String × Nat) :=
  if acc.any (fun p => p.1 = c) then
    acc.map (fun p => if p.1 = c then (p.1, p.2 + 1) else p)
  else acc ++ [(c, 1)]

/-- The `cpfCounts` object of `getRecurrentCustomers`, as an association list
in key-insertion order. -/
def cpfCounts (l : List Feedback) : List (String × Nat) :=
  l.foldl (fun acc f => bump acc f.cpf) []

/-- `getRecurrentCustomers`: `Math.round((recurrentCount / #keys) * 100) || 0`.
With no records the division is `NaN` and `Math.round(NaN) || 0` is `0`,
modelled by the emptiness guard. -/
def getRecurrentCustomers (l : List Feedback) : Int :=
  let counts := cpfCounts l
  let recurrentCount := ((counts.map Prod.snd).filter (fun n => 1 < n)).length
  if counts.length = 0 then 0
  else jsRound ((recurrentCount : ℚ) / (counts.length : ℚ) * 100)

/-- One step of `getRatingDistribution`'s `forEach`: increment the bucket of
the record's rounded average, provided it lies in `1..5`. -/
def distStep (d : List (Int × Nat)) (f : Feedback) : List (Int × Nat) :=
  let avg := bucketOf f
  if 1 ≤ avg ∧ avg ≤ 5 then
    d.map (fun p => if p.1 = avg then (p.1, p.2 + 1) else p)
  else d

/-- `getRatingDistribution`: five `(rating, count)` buckets seeded at zero,
then one `forEach` pass over the records. -/
def getRatingDistribution (l : List Feedback) : List (Int × Nat) :=
  l.foldl distStep ((List.range 5).map (fun (i : Nat) => ((i : Int) + 1, (0 : Nat))))

/-- The admin panel's sort selector: `recent`, `best` or `worst`. -/
inductive SortKey where
  | recent : SortKey
  | best : SortKey
  | worst : SortKey
deriving DecidableEq, Repr

/-- The JS comparator of `filteredAndSortedFeedbacks`, as the Boolean
"`compare(a,b) ≤ 0`" relation a stable sort realises: `recent` compares
timestamps descending, `best` per-record averages descending, `worst`
per-record averages ascending. -/
def leKey (key : SortKey) (a b : Feedback) : Bool :=
  match key with
  | SortKey.recent => decide (b.created_at ≤ a.created_at)
  | SortKey.best => decide (avgRating b ≤ avgRating a)
  | SortKey.worst => decide (avgRating a ≤ avgRating b)

/-- The `filtered` list of `filteredAndSortedFeedbacks`: keep records whose
unrounded per-record average is at least the selected minimum; `none` is the
"all" option (`minRatingFilter !== "all"` guard). -/
def filterByMin (l : List Feedback) (minRatingFilter : Option Int) : List Feedback :=
  match minRatingFilter with
  | none => l
  | some minRating => l.filter (fun f => decide ((minRating : ℚ) ≤ avgRating f))

/-- `filteredAndSortedFeedbacks`: filter, then sort with the comparator;
`Array.prototype.sort` is stable, modelled by `mergeSort`. -/
def filteredAndSortedFeedbacks (l : List Feedback) (minRatingFilter : Option Int)
    (sortBy : SortKey) : List Feedback :=
  (filterByMin l minRatingFilter).mergeSort (leKey sortBy)

/-- `comment.replace(/"/g, a doubled quote)` at the character level. -/
def escChars : List Char → List Char
  | [] => []
  | c :: cs => if c = '"' then '"' :: '"' :: escChars cs else c :: escChars cs

/-- The escaped-comment string of `exportToCSV`. -/
def escQuotes (s : String) : String := String.mk (escChars s.data)

/-- JavaScript `Array.prototype.join` with separator `,`. -/
def joinFields : List String → String
  | [] => ""
  | [v] => v
  | v :: rest => v ++ "," ++ joinFields rest

/-- The header row of `exportToCSV`. -/
def csvHeaders : List String :=
  ["Nome", "CPF", "Telefone", "Instagram", "Data", "Qualidade Comida",
   "Atendimento", "Tempo Espera", "Higiene", "Custo-Benefício", "Ambiente",
   "Comentário"]

/-- The twelve cells of one record's CSV row.  `fmt` stands for the external
`toLocaleDateString` call; numbers are stringified by `join`; only the
comment is quoted, with embedded quotes doubled (and `null` rendered `""`). -/
def csvFields (fmt : Int → String) (f : Feedback) : List String :=
  [f.nome, f.cpf, f.telefone, f.instagram, fmt f.created_at,
   toString f.qualidade_comida, toString f.atendimento,
   toString f.tempo_espera, toString f.higiene_limpeza,
   toString f.custo_beneficio, toString f.ambiente_conforto,
   "\"" ++ escQuotes ((f.comentario).getD "") ++ "\""]

/-- One CSV data line. -/
def csvLine (fmt : Int → String) (f : Feedback) : String :=
  joinFields (csvFields fmt f)

/-- The lines of the exported file: header row, then one line per record. -/
def exportLines (fmt : Int → String) (l : List Feedback) : List String :=
  joinFields csvHeaders :: l.map (csvLine fmt)

/-- JavaScript `Array.prototype.join` with separator a newline. -/
def joinLines : List String → String
  | [] => ""
  | [v] => v
  | v :: rest => v ++ "\n" ++ joinLines rest

/-- `exportToCSV`'s `csvContent` string. -/
def exportToCSV (fmt : Int → String) (l : List Feedback) : String :=
  joinLines (exportLines fmt l)

/-- Modelled from the spec: the quoted-field scanner of a standard CSV parser
("re-split on the same delimiter/quoting rules").  Reads until the closing
quote, un-doubling embedded `""` pairs; returns the field's characters and
the input remaining after the closing quote. -/
def parseQuoted : List Char → List Char → (List Char × List Char)
  | [], acc => (acc, [])
  | '"' :: '"' :: rest, acc => parseQuoted rest (acc ++ ['"'])
  | '"' :: rest, acc => (acc, rest)
  | c :: rest, acc => parseQuoted rest (acc ++ [c])

/-- The remaining input of `parseQuoted` never grows. -/
theorem parseQuoted_length_le (cs acc : List Char) :
    (parseQuoted cs acc).2.length ≤ cs.length := by
  induction cs, acc using parseQuoted.induct with
  | case1 acc => simp [parseQuoted]
  | case2 rest acc ih => simp only [parseQuoted, List.length_cons]; omega
  | case3 rest acc h => simp [parseQuoted]
  | case4 c rest acc h1 h2 ih => simp only [parseQuoted, List.length_cons]; omega

/-- Modelled from the spec: one line of "standard CSV delimiter/quoting
rules" split into raw fields, with a fuel parameter bounding recursion depth
(`parseCSVLine` supplies `length + 1`, always sufficient).  A field beginning
with `"` is read by `parseQuoted`; otherwise the field extends to the next
comma. -/
def parseFieldsAux : Nat → List Char → List (List Char)
  | 0, _ => []
  | _ + 1, [] => [[]]
  | fuel + 1, c :: cs2 =>
    if c = '"' then
      let q := parseQuoted cs2 []
      if q.2.head? = some ',' then q.1 :: parseFieldsAux fuel q.2.tail
      else [q.1]
    else
      let v := (c :: cs2).takeWhile (fun ch => ch ≠ ',')
      let r := (c :: cs2).dropWhile (fun ch => ch ≠ ',')
      if r = [] then [v]
      else v :: parseFieldsAux fuel r.tail

/-- Modelled from the spec: split one CSV line into its raw fields. -/
def parseFields (cs : List Char) : List (List Char) :=
  parseFieldsAux (cs.length + 1) cs

/-- Modelled from the spec: parse one CSV line into its field values. -/
def parseCSVLine (s : String) : List String :=
  (parseFields s.data).map (fun cs => String.mk cs)

/-- The customer-identity half of the form state. -/
structure CustomerData where
  name : String
  cpf : String
  phone : String
  instagram : String
deriving DecidableEq, Repr

/-- The ratings half of the form state (six star scores plus the comment);
unrated criteria hold the initial value `0`. -/
structure RatingData where
  foodQuality : Int
  service : Int
  waitTime : Int
  cleanliness : Int
  valueForMoney : Int
  ambiance : Int
  comment : String
deriving DecidableEq, Repr

/-- The six scores in `ratingCriteria` declaration order. -/
def ratingScores (r : RatingData) : List Int :=
  [r.foodQuality, r.service, r.waitTime, r.cleanliness, r.valueForMoney, r.ambiance]

/-- `validateForm`: reject when any customer field is falsy (empty string) or
when `ratingCriteria.filter(score === 0)` is non-empty; accept otherwise. -/
def validateForm (customer : CustomerData) (ratings : RatingData) : Bool :=
  if customer.name = "" ∨ customer.cpf = "" ∨ customer.phone = "" ∨
      customer.instagram = "" then
    false
  else if 0 < ((ratingScores ratings).filter (fun s => s = 0)).length then
    false
  else true

/-- The row `handleSubmit` inserts into the `feedbacks` table. -/
structure InsertPayload where
  nome : String
  cpf : String
  telefone : String
  instagram : String
  qualidade_comida : Int
  atendimento : Int
  tempo_espera : Int
  higiene_limpeza : Int
  custo_beneficio : Int
  ambiente_conforto : Int
  comentario : Option String
deriving DecidableEq, Repr

/-- `handleSubmit`: returns early (no insert, `none`) unless `validateForm`
passes; otherwise inserts the mapped payload (`comment || null`). -/
def handleSubmit (customer : CustomerData) (ratings : RatingData) :
    Option InsertPayload :=
  if validateForm customer ratings then
    some
      { nome := customer.name
        cpf := customer.cpf
        telefone := customer.phone
        instagram := customer.instagram
        qualidade_comida := ratings.foodQuality
        atendimento := ratings.service
        tempo_espera := ratings.waitTime
        higiene_limpeza := ratings.cleanliness
        custo_beneficio := ratings.valueForMoney
        ambiente_conforto := ratings.ambiance
        comentario := if ratings.comment = "" then none else some ratings.comment }
  else none

/-- The `feedbacks-changes` INSERT subscription handler: unconditionally
prepends the notified record to the current list. -/
def handleInsertNotification (prev : List Feedback) (payload : Feedback) :
    List Feedback :=
  payload :: prev

/-- Unfolding the `reduce` of `calculateAverages`: each running total is the
sum of the corresponding criterion over the list. -/
theorem foldl_addTotals (l : List Feedback) (acc : Totals) :
    l.foldl addTotals acc =
      { qualidade_comida := acc.qualidade_comida + (l.map Feedback.qualidade_comida).sum
        atendimento := acc.atendimento + (l.map Feedback.atendimento).sum
        tempo_espera := acc.tempo_espera + (l.map Feedback.tempo_espera).sum
        higiene_limpeza := acc.higiene_limpeza + (l.map Feedback.higiene_limpeza).sum
        custo_beneficio := acc.custo_beneficio + (l.map Feedback.custo_beneficio).sum
        ambiente_conforto := acc.ambiente_conforto + (l.map Feedback.ambiente_conforto).sum } := by
  induction l generalizing acc with
  | nil => cases acc; simp
  | cons f l ih =>
    rw [List.foldl_cons, ih]
    simp only [addTotals, List.map_cons, List.sum_cons, Totals.mk.injEq]
    refine ⟨?_, ?_, ?_, ?_, ?_, ?_⟩ <;> ring

theorem totalsOf_eq (l : List Feedback) :
    totalsOf l =
      { qualidade_comida := (l.map Feedback.qualidade_comida).sum
        atendimento := (l.map Feedback.atendimento).sum
        tempo_espera := (l.map Feedback.tempo_espera).sum
        higiene_limpeza := (l.map Feedback.higiene_limpeza).sum
        custo_beneficio := (l.map Feedback.custo_beneficio).sum
        ambiente_conforto := (l.map Feedback.ambiente_conforto).sum } := by
  unfold totalsOf
  rw [foldl_addTotals]
  simp

/-- A list of integers all in `[1,5]` has sum between `length` and
`5 * length`. -/
theorem sum_bounds_of_mem (xs : List Int) (h : ∀ x ∈ xs, 1 ≤ x ∧ x ≤ 5) :
    (xs.length : Int) ≤ xs.sum ∧ xs.sum ≤ 5 * xs.length := by
  induction xs with
  | nil => simp
  | cons x xs ih =>
    have hx := h x (List.mem_cons_self x xs)
    have hrest := ih (fun y hy => h y (List.mem_cons_of_mem x hy))
    simp only [List.length_cons, List.sum_cons]
    push_cast
    omega

/-- An integer sum between `n` and `5n` (with `n > 0`) averages into `[1,5]`. -/
theorem avg_bounds (s : Int) (n : Nat) (hn : 0 < n) (h1 : (n : Int) ≤ s)
    (h2 : s ≤ 5 * n) : 1 ≤ (s : ℚ) / n ∧ (s : ℚ) / n ≤ 5 := by
  have hn0 : (0 : ℚ) < (n : ℚ) := by exact_mod_cast hn
  constructor
  · rw [le_div_iff hn0]
    have : ((n : Int) : ℚ) ≤ (s : ℚ) := by exact_mod_cast h1
    push_cast at this ⊢
    linarith
  · rw [div_le_iff hn0]
    have : (s : ℚ) ≤ ((5 * n : Int) : ℚ) := by exact_mod_cast h2
    push_cast at this ⊢
    linarith

/-- `Math.round` maps `[1,5]` into `[1,5]`. -/
theorem jsRound_bounds (q : ℚ) (h1 : 1 ≤ q) (h2 : q ≤ 5) :
    1 ≤ jsRound q ∧ jsRound q ≤ 5 := by
  unfold jsRound
  constructor
  · exact Int.le_floor.mpr (by push_cast; linarith)
  · have h : ⌊q + 1 / 2⌋ ≤ ⌊(11 : ℚ) / 2⌋ := Int.floor_le_floor (by linarith)
    have h11 : ⌊(11 : ℚ) / 2⌋ = 5 := by norm_num [Int.floor_eq_iff]
    omega

/-- A valid record's six-score sum lies in `[6,30]`. -/
theorem scoreSum_bounds (f : Feedback) (h : validFeedback f) :
    6 ≤ scoreSum f ∧ scoreSum f ≤ 30 := by
  obtain ⟨h1, h2, h3, h4, h5, h6⟩ := h
  unfold validScore at *
  unfold scoreSum
  omega

/-- A valid record's unrounded average lies in `[1,5]`. -/
theorem avgRating_bounds (f : Feedback) (h : validFeedback f) :
    1 ≤ avgRating f ∧ avgRating f ≤ 5 := by
  obtain ⟨hlo, hhi⟩ := scoreSum_bounds f h
  unfold avgRating
  have h6 : (0 : ℚ) < 6 := by norm_num
  constructor
  · rw [le_div_iff h6]
    have : ((6 : Int) : ℚ) ≤ (scoreSum f : ℚ) := by exact_mod_cast hlo
    push_cast at this ⊢
    linarith
  · rw [div_le_iff h6]
    have : (scoreSum f : ℚ) ≤ ((30 : Int) : ℚ) := by exact_mod_cast hhi
    push_cast at this ⊢
    linarith

/-- A valid record's rounded average (its histogram bucket) lies in `[1,5]`:
the range guard of `getRatingDistribution` never discards a valid record. -/
theorem bucketOf_bounds (f : Feedback) (h : validFeedback f) :
    1 ≤ bucketOf f ∧ bucketOf f ≤ 5 := by
  obtain ⟨h1, h2⟩ := avgRating_bounds f h
  exact jsRound_bounds (avgRating f) h1 h2

/-- The guarded per-bucket predicate of `getRatingDistribution`'s `forEach`. -/
def inBucket (k : Int) (f : Feedback) : Bool :=
  decide (bucketOf f = k) && decide (1 ≤ bucketOf f) && decide (bucketOf f ≤ 5)

/-- Unfolding the `forEach` of `getRatingDistribution`: every bucket entry is
its seed plus the number of records whose guarded rounded average hits it. -/
theorem foldl_distStep (l : List Feedback) (d : List (Int × Nat)) :
    l.foldl distStep d = d.map (fun p => (p.1, p.2 + l.countP (inBucket p.1))) := by
  induction l generalizing d with
  | nil =>
    simp only [List.foldl_nil, List.countP_nil, Nat.add_zero]
    simp
  | cons f l ih =>
    rw [List.foldl_cons, ih]
    unfold distStep
    by_cases hg : 1 ≤ bucketOf f ∧ bucketOf f ≤ 5
    · rw [if_pos hg, List.map_map]
      apply List.map_congr_left
      intro p _
      simp only [Function.comp_apply]
      by_cases hp : p.1 = bucketOf f
      · have hstep : inBucket p.1 f = true := by
          simp [inBucket, hp, hg.1, hg.2]
        rw [if_pos hp]
        simp only [List.countP_cons, hstep, if_true, Prod.mk.injEq, true_and]
        omega
      · have hstep : inBucket p.1 f = false := by
          rcases Bool.eq_false_or_eq_true (inBucket p.1 f) with hc | hc
          · exfalso
            simp only [inBucket, Bool.and_eq_true, decide_eq_true_eq] at hc
            exact hp hc.1.1.symm
          · exact hc
        rw [if_neg hp]
        simp [List.countP_cons, hstep]
    · rw [if_neg hg]
      apply List.map_congr_left
      intro p _
      have hstep : inBucket p.1 f = false := by
        rcases Bool.eq_false_or_eq_true (inBucket p.1 f) with hc | hc
        · exfalso
          simp only [inBucket, Bool.and_eq_true, decide_eq_true_eq] at hc
          exact hg ⟨hc.1.2, hc.2⟩
        · exact hc
      simp [List.countP_cons, hstep]

/-- For a bucket value in `1..5` the range guard of `getRatingDistribution`
is redundant: the guarded predicate is just "rounded average equals k". -/
theorem inBucket_eq (k : Int) (h1 : 1 ≤ k) (h5 : k ≤ 5) (f : Feedback) :
    inBucket k f = decide (bucketOf f = k) := by
  unfold inBucket
  by_cases hb : bucketOf f = k
  · have e1 : 1 ≤ bucketOf f := by omega
    have e5 : bucketOf f ≤ 5 := by omega
    simp [hb, e1, e5]
    exact ⟨h1, h5⟩
  · simp [hb]

/-- `getRatingDistribution` counts, per bucket `1..5`, the records whose
rounded average (`Math.round` of the six-score mean) equals the bucket. -/
theorem getRatingDistribution_eq (l : List Feedback) :
    getRatingDistribution l =
      [(1, l.countP (fun f => decide (bucketOf f = 1))),
       (2, l.countP (fun f => decide (bucketOf f = 2))),
       (3, l.countP (fun f => decide (bucketOf f = 3))),
       (4, l.countP (fun f => decide (bucketOf f = 4))),
       (5, l.countP (fun f => decide (bucketOf f = 5)))] := by
  unfold getRatingDistribution
  rw [foldl_distStep]
  have hrange : List.range 5 = [0, 1, 2, 3, 4] := rfl
  rw [hrange]
  simp only [List.map_cons, List.map_nil]
  norm_num
  refine ⟨?_, ?_, ?_, ?_, ?_⟩ <;>
    · apply List.countP_congr
      intro f _
      rw [inBucket_eq] <;> norm_num

/-- When every record's bucket lies in `1..5`, the five bucket counts
partition the list. -/
theorem countP_buckets_sum (l : List Feedback)
    (hv : ∀ f ∈ l, 1 ≤ bucketOf f ∧ bucketOf f ≤ 5) :
    l.countP (fun f => decide (bucketOf f = 1)) +
    l.countP (fun f => decide (bucketOf f = 2)) +
    l.countP (fun f => decide (bucketOf f = 3)) +
    l.countP (fun f => decide (bucketOf f = 4)) +
    l.countP (fun f => decide (bucketOf f = 5)) = l.length := by
  induction l with
  | nil => simp
  | cons f l ih =>
    have hb := hv f (List.mem_cons_self f l)
    have hrest := ih (fun g hg => hv g (List.mem_cons_of_mem f hg))
    simp only [List.countP_cons, List.length_cons]
    have hcase : bucketOf f = 1 ∨ bucketOf f = 2 ∨ bucketOf f = 3 ∨
        bucketOf f = 4 ∨ bucketOf f = 5 := by omega
    rcases hcase with h | h | h | h | h <;> simp [h] <;> omega

/-- The histogram bucket counts of valid records sum to the record count. -/
theorem distribution_total (l : List Feedback)
    (hv : ∀ f ∈ l, 1 ≤ bucketOf f ∧ bucketOf f ≤ 5) :
    ((getRatingDistribution l).map Prod.snd).sum = l.length := by
  rw [getRatingDistribution_eq]
  have h := countP_buckets_sum l hv
  simp only [List.map_cons, List.map_nil, List.sum_cons, List.sum_nil]
  omega

/-- Invariant of the `cpfCounts` fold: the accumulator has pairwise-distinct
keys and holds exactly the occurrence counts of the cpfs seen so far. -/
def goodAcc (cs : List String) (acc : List (String × Nat)) : Prop :=
  (acc.map Prod.fst).Nodup ∧
  ∀ c n, ((c, n) ∈ acc ↔ c ∈ cs ∧ n = cs.count c)

/-- `bump` leaves the key list unchanged when the key is present, else
appends it. -/
theorem bump_keys (acc : List (String × Nat)) (c : String) :
    (bump acc c).map Prod.fst =
      if acc.any (fun p => p.1 = c) then acc.map Prod.fst
      else acc.map Prod.fst ++ [c] := by
  unfold bump
  by_cases h : acc.any (fun p => p.1 = c)
  · rw [if_pos h, if_pos h, List.map_map]
    apply List.map_congr_left
    intro p _
    by_cases hp : p.1 = c
    · simp [hp]
    · simp [hp]
  · rw [if_neg h, if_neg h]
    simp

/-- Occurrence counts across an appended singleton. -/
theorem count_append_singleton (cs : List String) (c0 c : String) :
    (cs ++ [c0]).count c = cs.count c + (if c = c0 then 1 else 0) := by
  rw [List.count_append]
  by_cases h : c = c0
  · simp [h]
  · simp [h]

/-- One `bump` step preserves the `cpfCounts` invariant. -/
theorem goodAcc_bump (cs : List String) (acc : List (String × Nat)) (c0 : String)
    (hg : goodAcc cs acc) : goodAcc (cs ++ [c0]) (bump acc c0) := by
  obtain ⟨hnd, hmem⟩ := hg
  have hkey : ∀ c : String, c ∈ acc.map Prod.fst ↔ c ∈ cs := by
    intro c
    simp only [List.mem_map]
    constructor
    · rintro ⟨p, hp, rfl⟩
      exact ((hmem p.1 p.2).mp hp).1
    · intro hc
      exact ⟨(c, cs.count c), (hmem c (cs.count c)).mpr ⟨hc, rfl⟩, rfl⟩
  have hany : acc.any (fun p => p.1 = c0) = true ↔ c0 ∈ cs := by
    rw [← hkey c0]
    simp only [List.any_eq_true, decide_eq_true_eq, List.mem_map]
  constructor
  · rw [bump_keys]
    by_cases h : acc.any (fun p => p.1 = c0)
    · rw [if_pos h]
      exact hnd
    · rw [if_neg h]
      have hc0 : c0 ∉ acc.map Prod.fst := by
        rw [hkey]
        intro hin
        exact h (hany.mpr hin)
      simp [List.nodup_append, hnd, hc0]
  · intro c n
    rw [count_append_singleton]
    unfold bump
    by_cases h : acc.any (fun p => p.1 = c0)
    · have hc0cs : c0 ∈ cs := hany.mp h
      rw [if_pos h]
      simp only [List.mem_map]
      by_cases hc : c = c0
      · subst hc
        rw [if_pos rfl]
        constructor
        · rintro ⟨p, hp, he⟩
          by_cases hpc : p.1 = c
          · rw [if_pos hpc] at he
            have h1 : p.1 = c := hpc
            have h2 : p.2 + 1 = n := by
              have := congrArg Prod.snd he
              simpa using this
            have hpmem := (hmem p.1 p.2).mp hp
            rw [h1] at hpmem
            refine ⟨by simp [hc0cs], by omega⟩
          · rw [if_neg hpc] at he
            have : p.1 = c := by
              have := congrArg Prod.fst he
              simpa using this
            exact absurd this hpc
        · rintro ⟨-, hn⟩
          refine ⟨(c, cs.count c), (hmem c (cs.count c)).mpr ⟨hc0cs, rfl⟩, ?_⟩
          rw [if_pos rfl]
          simp only [Prod.mk.injEq, true_and]
          omega
      · rw [if_neg hc]
        constructor
        · rintro ⟨p, hp, he⟩
          by_cases hpc : p.1 = c0
          · rw [if_pos hpc] at he
            have h1 : p.1 = c := by
              have := congrArg Prod.fst he
              simpa using this
            have h2 : c = c0 := by rw [← h1]; exact hpc
            exact absurd h2 hc
          · rw [if_neg hpc] at he
            rw [he] at hp
            have := (hmem c n).mp hp
            exact ⟨List.mem_append_left _ this.1, by omega⟩
        · rintro ⟨hcm, hn⟩
          have hccs : c ∈ cs := by
            rcases List.mem_append.mp hcm with h1 | h1
            · exact h1
            · exact absurd (by simpa using h1) hc
          refine ⟨(c, n), (hmem c n).mpr ⟨hccs, by omega⟩, ?_⟩
          rw [if_neg (by simpa using hc)]
    · have hc0cs : c0 ∉ cs := fun hin => h (hany.mpr hin)
      rw [if_neg h]
      have hnotkey : ∀ m : Nat, (c0, m) ∉ acc := fun m hin =>
        hc0cs ((hmem c0 m).mp hin).1
      simp only [List.mem_append, List.mem_singleton]
      by_cases hc : c = c0
      · subst hc
        rw [if_pos rfl]
        have hcnt0 : cs.count c = 0 := List.count_eq_zero_of_not_mem hc0cs
        constructor
        · rintro (hin | he)
          · exact absurd hin (hnotkey n)
          · have hn : n = 1 := by
              have := congrArg Prod.snd he
              simpa using this
            exact ⟨by simp, by omega⟩
        · rintro ⟨-, hn⟩
          right
          have : n = 1 := by omega
          simp [this]
      · rw [if_neg hc]
        constructor
        · rintro (hin | he)
          · have := (hmem c n).mp hin
            exact ⟨Or.inl this.1, by omega⟩
          · have : c = c0 := by
              have := congrArg Prod.fst he
              simpa using this
            exact absurd this hc
        · rintro ⟨hcm, hn⟩
          left
          have hccs : c ∈ cs := by
            rcases hcm with h1 | h1
            · exact h1
            · exact absurd h1 hc
          exact (hmem c n).mpr ⟨hccs, by omega⟩

/-- The `cpfCounts` fold keeps its invariant along the whole record list. -/
theorem goodAcc_foldl (l : List Feedback) :
    ∀ (cs : List String) (acc : List (String × Nat)), goodAcc cs acc →
      goodAcc (cs ++ l.map Feedback.cpf) (l.foldl (fun a f => bump a f.cpf) acc) := by
  induction l with
  | nil =>
    intro cs acc hg
    simpa using hg
  | cons f l ih =>
    intro cs acc hg
    have hstep := goodAcc_bump cs acc f.cpf hg
    have := ih (cs ++ [f.cpf]) (bump acc f.cpf) hstep
    simpa [List.append_assoc] using this

/-- `cpfCounts l` holds exactly the occurrence counts of the cpfs of `l`,
with pairwise-distinct keys. -/
theorem cpfCounts_good (l : List Feedback) :
    goodAcc (l.map Feedback.cpf) (cpfCounts l) := by
  have h0 : goodAcc [] ([] : List (String × Nat)) := by
    constructor
    · simp
    · intro c n
      simp
  have := goodAcc_foldl l [] [] h0
  simpa [cpfCounts] using this

/-- `Object.keys(cpfCounts).length` is the number of distinct cpfs. -/
theorem cpfCounts_length (l : List Feedback) :
    (cpfCounts l).length = (l.map Feedback.cpf).dedup.length := by
  obtain ⟨hnd, hmem⟩ := cpfCounts_good l
  have hperm : ((cpfCounts l).map Prod.fst).Perm (l.map Feedback.cpf).dedup := by
    rw [List.perm_ext_iff_of_nodup hnd (List.nodup_dedup _)]
    intro c
    rw [List.mem_dedup]
    constructor
    · intro hck
      obtain ⟨p, hp, he⟩ := List.mem_map.mp hck
      subst he
      exact ((hmem p.1 p.2).mp (by simpa using hp)).1
    · intro hc
      exact List.mem_map.mpr
        ⟨(c, (l.map Feedback.cpf).count c), (hmem _ _).mpr ⟨hc, rfl⟩, rfl⟩
  calc (cpfCounts l).length
      = ((cpfCounts l).map Prod.fst).length := (List.length_map _ _).symm
    _ = (l.map Feedback.cpf).dedup.length := hperm.length_eq

/-- `cpfCounts l` is, up to order, the per-distinct-cpf count table. -/
theorem cpfCounts_perm (l : List Feedback) :
    (cpfCounts l).Perm
      ((l.map Feedback.cpf).dedup.map
        (fun c => (c, (l.map Feedback.cpf).count c))) := by
  obtain ⟨hnd, hmem⟩ := cpfCounts_good l
  have hnd1 : (cpfCounts l).Nodup := List.Nodup.of_map Prod.fst hnd
  have hnd2 : ((l.map Feedback.cpf).dedup.map
      (fun c => (c, (l.map Feedback.cpf).count c))).Nodup := by
    apply List.Nodup.map_on
    · intro x _ y _ hxy
      exact congrArg Prod.fst hxy
    · exact List.nodup_dedup _
  rw [List.perm_ext_iff_of_nodup hnd1 hnd2]
  rintro ⟨c, n⟩
  rw [hmem c n]
  simp only [List.mem_map, List.mem_dedup]
  constructor
  · rintro ⟨hc, rfl⟩
    exact ⟨c, hc, rfl⟩
  · rintro ⟨x, hx, he⟩
    obtain ⟨h1, h2⟩ := Prod.mk.injEq .. ▸ he
    subst h1
    exact ⟨hx, h2.symm⟩

/-- `Object.values(cpfCounts).filter(count > 1).length` counts the distinct
cpfs occurring more than once. -/
theorem recurrentCount_eq (l : List Feedback) :
    (((cpfCounts l).map Prod.snd).filter (fun n => 1 < n)).length =
    ((l.map Feedback.cpf).dedup.filter
      (fun c => 1 < (l.map Feedback.cpf).count c)).length := by
  rw [List.filter_map, List.length_map]
  have hflt := (cpfCounts_perm l).filter ((fun n => decide (1 < n)) ∘ Prod.snd)
  rw [hflt.length_eq, List.filter_map, List.length_map]
  rfl

/-- `getRecurrentCustomers`, rephrased over distinct cpfs: the rounded
percentage of distinct cpfs occurring more than once. -/
theorem getRecurrentCustomers_eq (l : List Feedback) :
    getRecurrentCustomers l =
      if (l.map Feedback.cpf).dedup.length = 0 then 0
      else jsRound
        ((((l.map Feedback.cpf).dedup.filter
            (fun c => 1 < (l.map Feedback.cpf).count c)).length : ℚ) /
          ((l.map Feedback.cpf).dedup.length : ℚ) * 100) := by
  show (if (cpfCounts l).length = 0 then 0
    else jsRound (((((cpfCounts l).map Prod.snd).filter (fun n => 1 < n)).length : ℚ) /
      ((cpfCounts l).length : ℚ) * 100)) = _
  rw [recurrentCount_eq, cpfCounts_length]

/-- The `filteredAndSortedFeedbacks` comparator is transitive in each mode. -/
theorem leKey_trans (key : SortKey) :
    ∀ a b c : Feedback, leKey key a b = true → leKey key b c = true →
      leKey key a c = true := by
  intro a b c
  cases key with
  | recent =>
    simp only [leKey, decide_eq_true_eq]
    intro h1 h2
    exact le_trans h2 h1
  | best =>
    simp only [leKey, decide_eq_true_eq]
    intro h1 h2
    exact le_trans h2 h1
  | worst =>
    simp only [leKey, decide_eq_true_eq]
    intro h1 h2
    exact le_trans h1 h2

/-- The `filteredAndSortedFeedbacks` comparator is total in each mode. -/
theorem leKey_total (key : SortKey) :
    ∀ a b : Feedback, (leKey key a b || leKey key b a) = true := by
  intro a b
  cases key <;>
    · simp only [leKey, Bool.or_eq_true, decide_eq_true_eq]
      exact le_total _ _

/-- `String.mk` undoes `String.data`. -/
theorem stringMkData (s : String) : String.mk s.data = s := rfl

/-- A comma-free prefix is exactly what `takeWhile` keeps. -/
theorem takeWhile_append_comma :
    ∀ (v tail : List Char), ',' ∉ v →
      (v ++ ',' :: tail).takeWhile (fun ch => ch ≠ ',') = v := by
  intro v
  induction v with
  | nil =>
    intro tail _
    simp [List.takeWhile_cons]
  | cons a v ih =>
    intro tail h
    have ha : a ≠ ',' := fun he => h (he ▸ List.mem_cons_self a v)
    have hv : ',' ∉ v := fun hin => h (List.mem_cons_of_mem a hin)
    simpa [List.takeWhile_cons, ha] using ih tail hv

/-- `dropWhile` lands on the comma after a comma-free prefix. -/
theorem dropWhile_append_comma :
    ∀ (v tail : List Char), ',' ∉ v →
      (v ++ ',' :: tail).dropWhile (fun ch => ch ≠ ',') = ',' :: tail := by
  intro v
  induction v with
  | nil =>
    intro tail _
    simp [List.dropWhile_cons]
  | cons a v ih =>
    intro tail h
    have ha : a ≠ ',' := fun he => h (he ▸ List.mem_cons_self a v)
    have hv : ',' ∉ v := fun hin => h (List.mem_cons_of_mem a hin)
    simpa [List.dropWhile_cons, ha] using ih tail hv

/-- `parseQuoted` undoes the quote doubling of `exportToCSV` and stops at the
closing quote. -/
theorem parseQuoted_escChars (cs : List Char) :
    ∀ acc, parseQuoted (escChars cs ++ ['"']) acc = (acc ++ cs, []) := by
  induction cs with
  | nil =>
    intro acc
    simp [escChars, parseQuoted]
  | cons a cs ih =>
    intro acc
    by_cases ha : a = '"'
    · subst ha
      show parseQuoted ('"' :: '"' :: (escChars cs ++ ['"'])) acc = _
      rw [show parseQuoted ('"' :: '"' :: (escChars cs ++ ['"'])) acc =
        parseQuoted (escChars cs ++ ['"']) (acc ++ ['"']) from rfl]
      rw [ih]
      simp
    · rw [show escChars (a :: cs) = a :: escChars cs by simp [escChars, ha]]
      show parseQuoted (a :: (escChars cs ++ ['"'])) acc = _
      rw [parseQuoted.eq_def]
      split
      · simp_all
      · rename_i heq
        exfalso
        have : a = '"' := by
          have := congrArg (fun l => List.head? l) heq
          simpa using this
        exact ha this
      · rename_i heq
        exfalso
        have : a = '"' := by
          have := congrArg (fun l => List.head? l) heq
          simpa using this
        exact ha this
      · rename_i c rest _ _ heq
        have hc : c = a ∧ rest = escChars cs ++ ['"'] := by
          have h1 := congrArg (fun l => List.head? l) heq
          have h2 := congrArg (fun l => List.tail l) heq
          simp at h1 h2
          exact ⟨h1.symm, h2.symm⟩
        obtain ⟨rfl, rfl⟩ := hc
        rw [ih]
        simp

/-- With sufficient fuel, `parseFieldsAux` does not depend on the exact fuel. -/
theorem parseFieldsAux_fuel :
    ∀ (fuel1 fuel2 : Nat) (cs : List Char), cs.length < fuel1 →
      cs.length < fuel2 → parseFieldsAux fuel1 cs = parseFieldsAux fuel2 cs := by
  intro fuel1
  induction fuel1 with
  | zero =>
    intro fuel2 cs h1 _
    omega
  | succ f1 ih =>
    intro fuel2 cs h1 h2
    cases fuel2 with
    | zero => omega
    | succ f2 =>
      cases cs with
      | nil => rfl
      | cons c cs2 =>
        simp only [parseFieldsAux]
        by_cases hc : c = '"'
        · rw [if_pos hc, if_pos hc]
          have hlen := parseQuoted_length_le cs2 []
          by_cases hh : (parseQuoted cs2 []).2.head? = some ','
          · rw [if_pos hh, if_pos hh]
            have hne : (parseQuoted cs2 []).2 ≠ [] := by
              intro he
              rw [he] at hh
              simp at hh
            have htail : (parseQuoted cs2 []).2.tail.length <
                (parseQuoted cs2 []).2.length := by
              cases hq : (parseQuoted cs2 []).2 with
              | nil => exact absurd hq hne
              | cons d rest => simp
            have hlt : (parseQuoted cs2 []).2.tail.length < cs2.length := by
              omega
            simp only [List.length_cons] at h1 h2
            rw [ih f2 (parseQuoted cs2 []).2.tail (by omega) (by omega)]
          · rw [if_neg hh, if_neg hh]
        · rw [if_neg hc, if_neg hc]
          have hsub := (List.dropWhile_sublist
            (l := c :: cs2) (fun ch => ch ≠ ',')).length_le
          by_cases hr : (c :: cs2).dropWhile (fun ch => ch ≠ ',') = []
          · rw [if_pos hr, if_pos hr]
          · rw [if_neg hr, if_neg hr]
            have htail : ((c :: cs2).dropWhile (fun ch => ch ≠ ',')).tail.length <
                ((c :: cs2).dropWhile (fun ch => ch ≠ ',')).length := by
              cases hq : (c :: cs2).dropWhile (fun ch => ch ≠ ',') with
              | nil => exact absurd hq hr
              | cons d rest => simp
            simp only [List.length_cons] at h1 h2 hsub
            rw [ih f2 ((c :: cs2).dropWhile (fun ch => ch ≠ ',')).tail
              (by omega) (by omega)]

/-- Splitting off one unquoted comma-free field. -/
theorem parseFields_comma (v tail : List Char) (hc : ',' ∉ v) (hq : '"' ∉ v) :
    parseFields (v ++ ',' :: tail) = v :: parseFields tail := by
  unfold parseFields
  have hstep : ∀ (fuel : Nat), (v ++ ',' :: tail).length < fuel + 1 →
      parseFieldsAux (fuel + 1) (v ++ ',' :: tail) =
        v :: parseFieldsAux fuel tail := by
    intro fuel hf
    cases hv : v with
    | nil =>
      show parseFieldsAux (fuel + 1) (',' :: tail) = _
      simp only [parseFieldsAux]
      rw [if_neg (by decide : ¬ (',' : Char) = '"')]
      have htake : (',' :: tail).takeWhile (fun ch => ch ≠ ',') = [] := by
        simpa using takeWhile_append_comma [] tail (by simp)
      have hdrop : (',' :: tail).dropWhile (fun ch => ch ≠ ',') = ',' :: tail := by
        simpa using dropWhile_append_comma [] tail (by simp)
      rw [htake, hdrop]
      rw [if_neg (by simp)]
      simp
    | cons a v2 =>
      subst hv
      have ha : a ≠ '"' := fun he => hq (he ▸ List.mem_cons_self a v2)
      show parseFieldsAux (fuel + 1) (a :: (v2 ++ ',' :: tail)) = _
      simp only [parseFieldsAux]
      rw [if_neg ha]
      have htake := takeWhile_append_comma (a :: v2) tail hc
      have hdrop := dropWhile_append_comma (a :: v2) tail hc
      simp only [List.cons_append] at htake hdrop
      rw [htake, hdrop]
      rw [if_neg (by simp)]
      simp
  rw [hstep ((v ++ ',' :: tail).length) (by omega)]
  congr 1
  apply parseFieldsAux_fuel
  · simp only [List.length_append, List.length_cons]
    omega
  · omega

/-- Parsing the final quoted comment field. -/
theorem parseFields_quoted (c : List Char) :
    parseFields ('"' :: (escChars c ++ ['"'])) = [c] := by
  unfold parseFields
  simp only [parseFieldsAux]
  rw [if_pos trivial]
  rw [parseQuoted_escChars c []]
  simp

/-- `join(',')` on a list of at least two cells. -/
theorem joinFields_cons (v : String) (rest : List String) (h : rest ≠ []) :
    joinFields (v :: rest) = v ++ "," ++ joinFields rest := by
  cases rest with
  | nil => exact absurd rfl h
  | cons r rs => rfl

/-- Re-parsing one CSV line whose non-comment cells are comma- and quote-free
recovers every cell, the quoted comment included. -/
theorem parseCSVLine_fields (vs : List String) (c : String)
    (h : ∀ v ∈ vs, ',' ∉ v.data ∧ '"' ∉ v.data) :
    parseCSVLine (joinFields (vs ++ ["\"" ++ escQuotes c ++ "\""])) = vs ++ [c] := by
  induction vs with
  | nil =>
    show parseCSVLine (joinFields ["\"" ++ escQuotes c ++ "\""]) = [c]
    have hjoin : joinFields ["\"" ++ escQuotes c ++ "\""] =
        "\"" ++ escQuotes c ++ "\"" := rfl
    unfold parseCSVLine
    rw [hjoin]
    have hdata : ("\"" ++ escQuotes c ++ "\"").data =
        '"' :: (escChars c.data ++ ['"']) := by
      rw [String.data_append, String.data_append]
      simp [escQuotes]
    rw [hdata, parseFields_quoted]
    simp [stringMkData]
  | cons v vs ih =>
    have hrest : vs ++ ["\"" ++ escQuotes c ++ "\""] ≠ [] := by simp
    rw [List.cons_append, joinFields_cons v _ hrest]
    unfold parseCSVLine
    have hdata : (v ++ "," ++ joinFields (vs ++ ["\"" ++ escQuotes c ++ "\""])).data =
        v.data ++ ',' :: (joinFields (vs ++ ["\"" ++ escQuotes c ++ "\""])).data := by
      rw [String.data_append, String.data_append]
      simp
    rw [hdata]
    have hv := h v (List.mem_cons_self v vs)
    rw [parseFields_comma _ _ hv.1 hv.2]
    simp only [List.map_cons, stringMkData]
    rw [List.cons_append]
    congr 1
    exact ih (fun w hw => h w (List.mem_cons_of_mem v hw))

/-- A valid score renders to a single digit: comma- and quote-free. -/
theorem toString_score_clean (s : Int) (h : validScore s) :
    ',' ∉ (toString s).data ∧ '"' ∉ (toString s).data := by
  obtain ⟨h1, h5⟩ := h
  interval_cases s <;> decide

/-- C1: for every fixed finite list of valid feedback records and every
permutation of it, the derived statistics — the six per-criterion averages,
the overall average, the five histogram bucket counts and the
recurring-customer percentage — are identical: aggregation is invariant
under the order in which records are folded in. -/
theorem claim_C1 (l1 l2 : List Feedback) (hperm : l1.Perm l2)
    (hv : ∀ f ∈ l1, validFeedback f) :
    calculateAverages l1 = calculateAverages l2 ∧
    overallAverage l1 = overallAverage l2 ∧
    getRatingDistribution l1 = getRatingDistribution l2 ∧
    getRecurrentCustomers l1 = getRecurrentCustomers l2 := by
  have hlen := hperm.length_eq
  have hca : calculateAverages l1 = calculateAverages l2 := by
    unfold calculateAverages
    rw [totalsOf_eq, totalsOf_eq, hlen,
      (hperm.map Feedback.qualidade_comida).sum_eq,
      (hperm.map Feedback.atendimento).sum_eq,
      (hperm.map Feedback.tempo_espera).sum_eq,
      (hperm.map Feedback.higiene_limpeza).sum_eq,
      (hperm.map Feedback.custo_beneficio).sum_eq,
      (hperm.map Feedback.ambiente_conforto).sum_eq]
  refine ⟨hca, ?_, ?_, ?_⟩
  · unfold overallAverage
    rw [hca]
  · rw [getRatingDistribution_eq, getRatingDistribution_eq,
      hperm.countP_eq (fun f => decide (bucketOf f = 1)),
      hperm.countP_eq (fun f => decide (bucketOf f = 2)),
      hperm.countP_eq (fun f => decide (bucketOf f = 3)),
      hperm.countP_eq (fun f => decide (bucketOf f = 4)),
      hperm.countP_eq (fun f => decide (bucketOf f = 5))]
  · rw [getRecurrentCustomers_eq, getRecurrentCustomers_eq]
    have hcpfs : (l1.map Feedback.cpf).Perm (l2.map Feedback.cpf) :=
      hperm.map Feedback.cpf
    have hded := hcpfs.dedup
    have hfilt : ((l1.map Feedback.cpf).dedup.filter
        (fun c => 1 < (l1.map Feedback.cpf).count c)).length =
        ((l2.map Feedback.cpf).dedup.filter
        (fun c => 1 < (l2.map Feedback.cpf).count c)).length := by
      rw [List.filter_congr
        (fun c _ => by rw [hcpfs.count_eq c] :
          ∀ c ∈ (l1.map Feedback.cpf).dedup,
            (decide (1 < (l1.map Feedback.cpf).count c)) =
            (decide (1 < (l2.map Feedback.cpf).count c)))]
      exact (hded.filter _).length_eq
    rw [hded.length_eq, hfilt]

/-- C1 witness: a concrete two-record list and its swap. -/
def w1a : Feedback :=
  ⟨"a", 10, "Ana", "111", "t1", "ia", 5, 4, 3, 2, 1, 5, none⟩

def w1b : Feedback :=
  ⟨"b", 20, "Bia", "222", "t2", "ib", 1, 2, 3, 4, 5, 1, some "ok"⟩

theorem claim_C1_witness :
    calculateAverages [w1a, w1b] = calculateAverages [w1b, w1a] ∧
    overallAverage [w1a, w1b] = overallAverage [w1b, w1a] ∧
    getRatingDistribution [w1a, w1b] = getRatingDistribution [w1b, w1a] ∧
    getRecurrentCustomers [w1a, w1b] = getRecurrentCustomers [w1b, w1a] :=
  claim_C1 [w1a, w1b] [w1b, w1a] (List.Perm.swap w1b w1a []) (by decide)

/-- The average of one criterion over a non-empty valid list is in `[1,5]`. -/
theorem criterion_avg_bounds (l : List Feedback) (g : Feedback → Int)
    (hlen : l.length ≠ 0) (hs : ∀ f ∈ l, 1 ≤ g f ∧ g f ≤ 5) :
    1 ≤ ((l.map g).sum : ℚ) / (l.length : ℚ) ∧
      ((l.map g).sum : ℚ) / (l.length : ℚ) ≤ 5 := by
  have hb := sum_bounds_of_mem (l.map g) (by
    intro x hx
    obtain ⟨f, hf, rfl⟩ := List.mem_map.mp hx
    exact hs f hf)
  rw [List.length_map] at hb
  exact avg_bounds _ _ (Nat.pos_of_ne_zero hlen) hb.1 hb.2

/-- C2: on a non-empty valid record list each per-criterion average is that
criterion's sum over the record count and lies in `[1,5]`, the dashboard
overall average is the mean of the six per-criterion averages, and on the
empty list `calculateAverages` yields the undefined sentinel. -/
theorem claim_C2 (l : List Feedback) (hne : l ≠ [])
    (hv : ∀ f ∈ l, validFeedback f) :
    calculateAverages ([] : List Feedback) = none ∧
    ∃ a, calculateAverages l = some a ∧
      (a.qualidade_comida = ((l.map Feedback.qualidade_comida).sum : ℚ) / (l.length : ℚ) ∧
       a.atendimento = ((l.map Feedback.atendimento).sum : ℚ) / (l.length : ℚ) ∧
       a.tempo_espera = ((l.map Feedback.tempo_espera).sum : ℚ) / (l.length : ℚ) ∧
       a.higiene_limpeza = ((l.map Feedback.higiene_limpeza).sum : ℚ) / (l.length : ℚ) ∧
       a.custo_beneficio = ((l.map Feedback.custo_beneficio).sum : ℚ) / (l.length : ℚ) ∧
       a.ambiente_conforto = ((l.map Feedback.ambiente_conforto).sum : ℚ) / (l.length : ℚ)) ∧
      ((1 ≤ a.qualidade_comida ∧ a.qualidade_comida ≤ 5) ∧
       (1 ≤ a.atendimento ∧ a.atendimento ≤ 5) ∧
       (1 ≤ a.tempo_espera ∧ a.tempo_espera ≤ 5) ∧
       (1 ≤ a.higiene_limpeza ∧ a.higiene_limpeza ≤ 5) ∧
       (1 ≤ a.custo_beneficio ∧ a.custo_beneficio ≤ 5) ∧
       (1 ≤ a.ambiente_conforto ∧ a.ambiente_conforto ≤ 5)) ∧
      overallAverage l =
        (a.qualidade_comida + a.atendimento + a.tempo_espera +
         a.higiene_limpeza + a.custo_beneficio + a.ambiente_conforto) / 6 := by
  have hlen : l.length ≠ 0 := by
    intro h
    exact hne (List.length_eq_zero.mp h)
  have hca : calculateAverages l = some
      { qualidade_comida := ((l.map Feedback.qualidade_comida).sum : ℚ) / (l.length : ℚ)
        atendimento := ((l.map Feedback.atendimento).sum : ℚ) / (l.length : ℚ)
        tempo_espera := ((l.map Feedback.tempo_espera).sum : ℚ) / (l.length : ℚ)
        higiene_limpeza := ((l.map Feedback.higiene_limpeza).sum : ℚ) / (l.length : ℚ)
        custo_beneficio := ((l.map Feedback.custo_beneficio).sum : ℚ) / (l.length : ℚ)
        ambiente_conforto := ((l.map Feedback.ambiente_conforto).sum : ℚ) / (l.length : ℚ) } := by
    unfold calculateAverages
    rw [if_neg hlen, totalsOf_eq]
  refine ⟨rfl, _, hca, ⟨rfl, rfl, rfl, rfl, rfl, rfl⟩, ?_, ?_⟩
  · exact ⟨criterion_avg_bounds l _ hlen (fun f hf => (hv f hf).1),
      criterion_avg_bounds l _ hlen (fun f hf => (hv f hf).2.1),
      criterion_avg_bounds l _ hlen (fun f hf => (hv f hf).2.2.1),
      criterion_avg_bounds l _ hlen (fun f hf => (hv f hf).2.2.2.1),
      criterion_avg_bounds l _ hlen (fun f hf => (hv f hf).2.2.2.2.1),
      criterion_avg_bounds l _ hlen (fun f hf => (hv f hf).2.2.2.2.2)⟩
  · unfold overallAverage
    rw [hca]

/-- C2 witness record. -/
def w2rec : Feedback :=
  ⟨"w2", 7, "Cora", "333", "t3", "ic", 5, 5, 5, 5, 5, 4, none⟩

theorem claim_C2_witness :
    calculateAverages ([] : List Feedback) = none ∧
    ∃ a, calculateAverages [w2rec] = some a ∧ 1 ≤ a.qualidade_comida := by
  obtain ⟨hnone, a, ha, _, hb, _⟩ := claim_C2 [w2rec] (by decide) (by decide)
  exact ⟨hnone, a, ha, hb.1.1⟩

/-- C3 scenario records: constant scores 5, 1 and 3. -/
def w3all5 : Feedback :=
  ⟨"x5", 1, "N5", "cA", "t", "i", 5, 5, 5, 5, 5, 5, none⟩

def w3all1 : Feedback :=
  ⟨"x1", 2, "N1", "cB", "t", "i", 1, 1, 1, 1, 1, 1, none⟩

def w3all3 : Feedback :=
  ⟨"x3", 3, "N3", "cC", "t", "i", 3, 3, 3, 3, 3, 3, none⟩

/-- C3: every record lands in exactly one histogram bucket, the one indexed
by the mean of its six scores rounded to the nearest integer with `.5`
rounding up; the three constant-score records 5, 1 and 3 produce bucket
counts 1/3/5 ↦ 1 and 2/4 ↦ 0. -/
theorem claim_C3 (l : List Feedback) (hv : ∀ f ∈ l, validFeedback f) :
    getRatingDistribution l =
      [(1, l.countP (fun f => decide (bucketOf f = 1))),
       (2, l.countP (fun f => decide (bucketOf f = 2))),
       (3, l.countP (fun f => decide (bucketOf f = 3))),
       (4, l.countP (fun f => decide (bucketOf f = 4))),
       (5, l.countP (fun f => decide (bucketOf f = 5)))] ∧
    (∀ f ∈ l, bucketOf f = jsRound (avgRating f) ∧
      1 ≤ bucketOf f ∧ bucketOf f ≤ 5) ∧
    getRatingDistribution [w3all5, w3all1, w3all3] =
      [(1, 1), (2, 0), (3, 1), (4, 0), (5, 1)] := by
  have hb5 : bucketOf w3all5 = 5 := by
    have ha : avgRating w3all5 = 5 := by
      norm_num [avgRating, scoreSum, w3all5]
    norm_num [bucketOf, jsRound, ha]
  have hb1 : bucketOf w3all1 = 1 := by
    have ha : avgRating w3all1 = 1 := by
      norm_num [avgRating, scoreSum, w3all1]
    norm_num [bucketOf, jsRound, ha]
  have hb3 : bucketOf w3all3 = 3 := by
    have ha : avgRating w3all3 = 3 := by
      norm_num [avgRating, scoreSum, w3all3]
    norm_num [bucketOf, jsRound, ha]
  refine ⟨getRatingDistribution_eq l, ?_, ?_⟩
  · intro f hf
    exact ⟨rfl, bucketOf_bounds f (hv f hf)⟩
  · rw [getRatingDistribution_eq]
    simp [List.countP_cons, hb5, hb1, hb3]

theorem claim_C3_witness :
    getRatingDistribution [w3all5, w3all1, w3all3] =
      [(1, 1), (2, 0), (3, 1), (4, 0), (5, 1)] :=
  (claim_C3 [w3all5, w3all1, w3all3] (by decide)).2.2

/-- C10: for valid records the rounded per-record average is always in
`[1,5]`, so the histogram's range guard never discards a record and the five
bucket counts sum to the number of records. -/
theorem claim_C10 (l : List Feedback) (hv : ∀ f ∈ l, validFeedback f) :
    (∀ f ∈ l, 1 ≤ bucketOf f ∧ bucketOf f ≤ 5) ∧
    ((getRatingDistribution l).map Prod.snd).sum = l.length := by
  have hb : ∀ f ∈ l, 1 ≤ bucketOf f ∧ bucketOf f ≤ 5 :=
    fun f hf => bucketOf_bounds f (hv f hf)
  exact ⟨hb, distribution_total l hb⟩

/-- C10 witness records. -/
def w10a : Feedback :=
  ⟨"ya", 4, "Na", "c1", "t", "i", 2, 3, 4, 5, 1, 2, none⟩

def w10b : Feedback :=
  ⟨"yb", 5, "Nb", "c2", "t", "i", 5, 5, 4, 4, 3, 3, some "hi"⟩

theorem claim_C10_witness :
    ((getRatingDistribution [w10a, w10b]).map Prod.snd).sum =
      [w10a, w10b].length :=
  (claim_C10 [w10a, w10b] (by decide)).2

/-- Deduplicating a constant non-empty list leaves one element. -/
theorem dedup_replicate_pos (n : Nat) (c : String) (hn : 0 < n) :
    (List.replicate n c).dedup = [c] := by
  induction n with
  | zero => omega
  | succ n ih =>
    cases Nat.eq_zero_or_pos n with
    | inl h0 =>
      subst h0
      simp
    | inr hpos =>
      rw [List.replicate_succ]
      rw [List.dedup_cons_of_mem]
      · exact ih hpos
      · exact List.mem_replicate.mpr ⟨Nat.pos_iff_ne_zero.mp hpos, rfl⟩

/-- `Math.round` of `0` and of `100`, as used by `getRecurrentCustomers`. -/
theorem jsRound_zero : jsRound 0 = 0 := by
  norm_num [jsRound]

theorem jsRound_hundred : jsRound 100 = 100 := by
  norm_num [jsRound]

/-- C4 (amended): the recurring-customer percentage is
`round(100 * distinctCpfsWithCount>1 / distinctCpfCount)`; it is `0` with no
records (no division-by-zero), `0` when every cpf is distinct, and `100`
when all of at least two records share one cpf.  (A single record also
"shares one cpf" with itself but yields `0`, see the counterexample.) -/
theorem claim_C4 (l : List Feedback) :
    getRecurrentCustomers ([] : List Feedback) = 0 ∧
    ((l.map Feedback.cpf).Nodup → getRecurrentCustomers l = 0) ∧
    (∀ c : String, 2 ≤ l.length → (∀ f ∈ l, f.cpf = c) →
      getRecurrentCustomers l = 100) ∧
    (l ≠ [] → getRecurrentCustomers l =
      jsRound (100 * (((l.map Feedback.cpf).dedup.filter
          (fun c => 1 < (l.map Feedback.cpf).count c)).length : ℚ) /
        ((l.map Feedback.cpf).dedup.length : ℚ))) := by
  refine ⟨rfl, ?_, ?_, ?_⟩
  · intro hnd
    rw [getRecurrentCustomers_eq]
    have hfilt : (l.map Feedback.cpf).dedup.filter
        (fun c => 1 < (l.map Feedback.cpf).count c) = [] := by
      rw [List.filter_eq_nil]
      intro c hc
      have h1 : (l.map Feedback.cpf).count c = 1 :=
        List.count_eq_one_of_mem hnd (List.mem_dedup.mp hc)
      simp [h1]
    rw [hfilt]
    by_cases hz : (l.map Feedback.cpf).dedup.length = 0
    · rw [if_pos hz]
    · rw [if_neg hz]
      rw [show ((([] : List String).length : ℚ) /
          ((l.map Feedback.cpf).dedup.length : ℚ) * 100) = 0 by simp]
      exact jsRound_zero
  · intro c hlen hall
    rw [getRecurrentCustomers_eq]
    have hrepl : l.map Feedback.cpf = List.replicate l.length c := by
      rw [List.eq_replicate]
      constructor
      · simp
      · intro b hb
        obtain ⟨f, hf, rfl⟩ := List.mem_map.mp hb
        exact hall f hf
    rw [hrepl, dedup_replicate_pos l.length c (by omega)]
    have hcnt : (List.replicate l.length c).count c = l.length :=
      List.count_replicate_self c l.length
    have hfilt : [c].filter (fun x => 1 < (List.replicate l.length c).count x) =
        [c] := by
      simp only [List.filter_cons, List.filter_nil]
      rw [if_pos]
      simp [hcnt]
      omega
    rw [hfilt]
    rw [if_neg (by simp)]
    rw [show ((([c] : List String).length : ℚ) / (([c] : List String).length : ℚ) *
        100) = 100 by simp]
    exact jsRound_hundred
  · intro hne
    rw [getRecurrentCustomers_eq]
    have hz : (l.map Feedback.cpf).dedup.length ≠ 0 := by
      intro h0
      have := List.length_eq_zero.mp h0
      rw [List.dedup_eq_nil] at this
      exact hne (by simpa using this)
    rw [if_neg hz]
    congr 1
    ring

/-- C4 counterexample record: a single record trivially has all records
sharing one cpf, yet the percentage is `0`, not `100`. -/
def w4solo : Feedback :=
  ⟨"s", 1, "Solo", "999", "t", "i", 3, 3, 3, 3, 3, 3, none⟩

theorem claim_C4_counterexample :
    (∀ f ∈ [w4solo], f.cpf = "999") ∧ getRecurrentCustomers [w4solo] ≠ 100 := by
  constructor
  · intro f hf
    simp only [List.mem_singleton] at hf
    subst hf
    rfl
  · have h0 : getRecurrentCustomers [w4solo] = 0 := by
      rw [getRecurrentCustomers_eq]
      have hmap : [w4solo].map Feedback.cpf = ["999"] := rfl
      rw [hmap]
      have hded : (["999"] : List String).dedup = ["999"] := by simp
      rw [hded]
      have hfilt : (["999"] : List String).filter
          (fun c => 1 < (["999"] : List String).count c) = [] := by
        simp [List.count_singleton]
      rw [hfilt]
      rw [if_neg (by simp)]
      rw [show ((([] : List String).length : ℚ) /
          ((["999"] : List String).length : ℚ) * 100) = 0 by simp]
      exact jsRound_zero
    rw [h0]
    decide

/-- C4 witness records. -/
def w4a : Feedback :=
  ⟨"wa", 1, "A", "777", "t", "i", 2, 2, 2, 2, 2, 2, none⟩

def w4b : Feedback :=
  ⟨"wb", 2, "B", "777", "t", "i", 4, 4, 4, 4, 4, 4, none⟩

theorem claim_C4_witness : getRecurrentCustomers [w4a, w4b] = 100 :=
  (claim_C4 [w4a, w4b]).2.2.1 "777" (by decide)
    (by
      intro f hf
      rcases List.mem_cons.mp hf with rfl | hf2
      · rfl
      · rcases List.mem_singleton.mp hf2 with rfl
        rfl)

/-- The ordering claimed for `sortKey = recent`: descending `created_at`,
ties broken by `id` descending. -/
def recentIdOrder (a b : Feedback) : Prop :=
  b.created_at < a.created_at ∨ (b.created_at = a.created_at ∧ b.id < a.id)

instance (a b : Feedback) : Decidable (recentIdOrder a b) := by
  unfold recentIdOrder
  infer_instance

/-- C5 (amended): each projection is a permutation of the filtered list that
is sorted (non-strictly) by the selected comparator — timestamps descending
for `recent`, per-record average descending for `best`, ascending for
`worst` — and it is stable: records that compare equal keep their relative
order from the input list.  No `id` or `created_at` tie-break is applied. -/
theorem claim_C5 (l : List Feedback) (minF : Option Int) (key : SortKey) :
    (filteredAndSortedFeedbacks l minF key).Perm (filterByMin l minF) ∧
    List.Pairwise (fun a b => leKey key a b = true)
      (filteredAndSortedFeedbacks l minF key) ∧
    (∀ c : List Feedback, List.Pairwise (fun a b => leKey key a b = true) c →
      c.Sublist (filterByMin l minF) →
      c.Sublist (filteredAndSortedFeedbacks l minF key)) := by
  refine ⟨List.mergeSort_perm _ _,
    List.sorted_mergeSort (leKey_trans key) (leKey_total key) _, ?_⟩
  intro c hc hsub
  exact List.sublist_mergeSort (leKey_trans key) (leKey_total key) hc hsub

/-- C5 records: equal timestamps, ids in ascending input order. -/
def w5a : Feedback :=
  ⟨"a", 50, "Na", "c1", "t", "i", 3, 3, 3, 3, 3, 3, none⟩

def w5b : Feedback :=
  ⟨"b", 50, "Nb", "c2", "t", "i", 4, 4, 4, 4, 4, 4, none⟩

/-- C5 counterexample: with two records tied on `created_at` and ids "a",
"b" arriving in that input order, the `recent` projection keeps input order
(stable sort), so it is NOT ordered by the claimed id-descending tie-break. -/
theorem claim_C5_counterexample :
    ¬ List.Pairwise recentIdOrder
      (filteredAndSortedFeedbacks [w5a, w5b] none SortKey.recent) := by
  have hpair : List.Pairwise
      (fun a b => leKey SortKey.recent a b = true) [w5a, w5b] := by decide
  have hsub : [w5a, w5b].Sublist (filterByMin [w5a, w5b] none) :=
    List.Sublist.refl _
  have h2 := List.sublist_mergeSort (leKey_trans SortKey.recent)
    (leKey_total SortKey.recent) hpair hsub
  have hlen : (filteredAndSortedFeedbacks [w5a, w5b] none SortKey.recent).length
      = 2 := by
    show ((filterByMin [w5a, w5b] none).mergeSort (leKey SortKey.recent)).length = 2
    rw [(List.mergeSort_perm (filterByMin [w5a, w5b] none)
      (leKey SortKey.recent)).length_eq]
    rfl
  have hlen2 : ((filterByMin [w5a, w5b] none).mergeSort
      (leKey SortKey.recent)).length = 2 := hlen
  have hout : filteredAndSortedFeedbacks [w5a, w5b] none SortKey.recent
      = [w5a, w5b] :=
    (h2.eq_of_length (by rw [hlen2]; rfl)).symm
  rw [hout]
  intro hp
  have h := (List.pairwise_cons.mp hp).1 w5b (List.mem_singleton.mpr rfl)
  rcases h with h | ⟨-, h⟩
  · exact absurd h (by decide)
  · rw [show w5b.id = "b" from rfl, show w5a.id = "a" from rfl,
      String.lt_iff_toList_lt] at h
    exact absurd h (by decide)

theorem claim_C5_witness :
    (filteredAndSortedFeedbacks [w5a, w5b] none SortKey.recent).Perm
      (filterByMin [w5a, w5b] none) ∧
    [w5a].Sublist (filteredAndSortedFeedbacks [w5a, w5b] none SortKey.recent) := by
  refine ⟨(claim_C5 [w5a, w5b] none SortKey.recent).1, ?_⟩
  exact (claim_C5 [w5a, w5b] none SortKey.recent).2.2 [w5a] (by decide) (by decide)

/-- C6: projecting with minimum-rating filter `k` keeps exactly the records
whose unrounded six-score mean is at least `k` (as a permutation, and as a
membership characterisation), and with `k = 5` only records whose mean is
exactly `5.0` survive. -/
theorem claim_C6 (l : List Feedback) (k : Int) (key : SortKey)
    (hv : ∀ f ∈ l, validFeedback f) :
    (filteredAndSortedFeedbacks l (some k) key).Perm
      (l.filter (fun f => decide ((k : ℚ) ≤ avgRating f))) ∧
    (∀ f, f ∈ filteredAndSortedFeedbacks l (some k) key ↔
      f ∈ l ∧ (k : ℚ) ≤ avgRating f) ∧
    (∀ f, f ∈ filteredAndSortedFeedbacks l (some 5) key ↔
      f ∈ l ∧ avgRating f = 5) := by
  have hmem : ∀ (k' : Int) (f : Feedback),
      f ∈ filteredAndSortedFeedbacks l (some k') key ↔
        f ∈ l ∧ (k' : ℚ) ≤ avgRating f := by
    intro k' f
    unfold filteredAndSortedFeedbacks filterByMin
    rw [(List.mergeSort_perm _ _).mem_iff, List.mem_filter]
    simp
  refine ⟨List.mergeSort_perm _ _, hmem k, ?_⟩
  intro f
  rw [hmem 5 f]
  constructor
  · rintro ⟨hf, hle⟩
    have hub := (avgRating_bounds f (hv f hf)).2
    exact ⟨hf, le_antisymm hub (by exact_mod_cast hle)⟩
  · rintro ⟨hf, heq⟩
    exact ⟨hf, by rw [heq]; norm_num⟩

/-- C6 witness records: one perfect score, one not. -/
def w6a : Feedback :=
  ⟨"p", 1, "P", "c1", "t", "i", 5, 5, 5, 5, 5, 5, none⟩

def w6b : Feedback :=
  ⟨"q", 2, "Q", "c2", "t", "i", 5, 5, 5, 5, 5, 4, none⟩

theorem claim_C6_witness :
    (filteredAndSortedFeedbacks [w6a, w6b] (some 3) SortKey.best).Perm
      ([w6a, w6b].filter (fun f => decide ((3 : ℚ) ≤ avgRating f))) ∧
    (w6a ∈ filteredAndSortedFeedbacks [w6a, w6b] (some 5) SortKey.best ↔
      w6a ∈ [w6a, w6b] ∧ avgRating w6a = 5) :=
  ⟨(claim_C6 [w6a, w6b] 3 SortKey.best (by decide)).1,
   (claim_C6 [w6a, w6b] 5 SortKey.best (by decide)).2.2 w6a⟩

/-- C7 (amended): the export is one header line plus one line per record,
and re-parsing a record's line under standard CSV rules recovers every cell
— including a comment with embedded quotes, which is quoted and doubled —
PROVIDED the non-comment cells (and the rendered date) contain no comma and
no quote character; only the comment cell is quoted defensively. -/
theorem claim_C7 (fmt : Int → String) (l : List Feedback)
    (hfmt : ∀ t, ',' ∉ (fmt t).data ∧ '"' ∉ (fmt t).data)
    (hl : ∀ f ∈ l,
      (',' ∉ f.nome.data ∧ '"' ∉ f.nome.data) ∧
      (',' ∉ f.cpf.data ∧ '"' ∉ f.cpf.data) ∧
      (',' ∉ f.telefone.data ∧ '"' ∉ f.telefone.data) ∧
      (',' ∉ f.instagram.data ∧ '"' ∉ f.instagram.data))
    (hv : ∀ f ∈ l, validFeedback f) :
    exportToCSV fmt l = joinLines (joinFields csvHeaders :: l.map (csvLine fmt)) ∧
    ∀ f ∈ l, parseCSVLine (csvLine fmt f) =
      [f.nome, f.cpf, f.telefone, f.instagram, fmt f.created_at,
       toString f.qualidade_comida, toString f.atendimento,
       toString f.tempo_espera, toString f.higiene_limpeza,
       toString f.custo_beneficio, toString f.ambiente_conforto,
       (f.comentario).getD ""] := by
  refine ⟨rfl, ?_⟩
  intro f hf
  obtain ⟨hnome, hcpf, htel, hinsta⟩ := hl f hf
  obtain ⟨hs1, hs2, hs3, hs4, hs5, hs6⟩ := hv f hf
  have happ : csvLine fmt f = joinFields
      ([f.nome, f.cpf, f.telefone, f.instagram, fmt f.created_at,
        toString f.qualidade_comida, toString f.atendimento,
        toString f.tempo_espera, toString f.higiene_limpeza,
        toString f.custo_beneficio, toString f.ambiente_conforto] ++
       ["\"" ++ escQuotes ((f.comentario).getD "") ++ "\""]) := rfl
  rw [happ, parseCSVLine_fields]
  · rfl
  intro v hvv
  simp only [List.mem_cons, List.not_mem_nil, or_false] at hvv
  rcases hvv with rfl | rfl | rfl | rfl | rfl | rfl | rfl | rfl | rfl | rfl | rfl
  · exact hnome
  · exact hcpf
  · exact htel
  · exact hinsta
  · exact hfmt f.created_at
  · exact toString_score_clean _ hs1
  · exact toString_score_clean _ hs2
  · exact toString_score_clean _ hs3
  · exact toString_score_clean _ hs4
  · exact toString_score_clean _ hs5
  · exact toString_score_clean _ hs6

/-- Concrete stand-in for the external `toLocaleDateString` rendering. -/
def fmtBR : Int → String := fun _ => "31/12/2024"

/-- C7 counterexample record: a name containing a comma (never quoted by
`exportToCSV`). -/
def w7bad : Feedback :=
  ⟨"cz", 3, "Silva, Joao", "111", "t", "i", 1, 1, 1, 1, 1, 1, none⟩

/-- C7 counterexample: the claimed universal round-trip fails — a comma
inside the unquoted name cell splits into an extra field on re-parse. -/
theorem claim_C7_counterexample :
    parseCSVLine (csvLine fmtBR w7bad) ≠
      [w7bad.nome, w7bad.cpf, w7bad.telefone, w7bad.instagram,
       fmtBR w7bad.created_at,
       toString w7bad.qualidade_comida, toString w7bad.atendimento,
       toString w7bad.tempo_espera, toString w7bad.higiene_limpeza,
       toString w7bad.custo_beneficio, toString w7bad.ambiente_conforto,
       (w7bad.comentario).getD ""] := by
  have hsplit : csvLine fmtBR w7bad = joinFields
      ((["Silva", " Joao", "111", "t", "i", "31/12/2024", "1", "1", "1", "1",
         "1", "1"] : List String) ++
       ["\"" ++ escQuotes "" ++ "\""]) := by decide
  rw [hsplit, parseCSVLine_fields _ _ (by decide)]
  decide

/-- C7 witness record: clean identity cells, comment with embedded quotes. -/
def w7good : Feedback :=
  ⟨"ok", 9, "Maria", "222", "tel", "insta", 5, 4, 3, 2, 1, 5,
   some "nice \"bar\""⟩

theorem claim_C7_witness :
    parseCSVLine (csvLine fmtBR w7good) =
      ["Maria", "222", "tel", "insta", "31/12/2024", "5", "4", "3", "2", "1",
       "5", "nice \"bar\""] := by
  have hfmt : ∀ t, ',' ∉ (fmtBR t).data ∧ '"' ∉ (fmtBR t).data :=
    fun _ => (by decide :
      ',' ∉ ("31/12/2024" : String).data ∧ '"' ∉ ("31/12/2024" : String).data)
  have h := (claim_C7 fmtBR [w7good] hfmt
    (by decide) (by decide)).2 w7good (List.mem_singleton.mpr rfl)
  rw [h]
  decide

/-- C8 (amended): the realtime INSERT handler always prepends the notified
record — duplicates are NOT absorbed: redelivering a notification for an
already-stored identical record grows the list again, so the handler is not
an idempotent no-op. -/
theorem claim_C8 (prev : List Feedback) (payload : Feedback) :
    handleInsertNotification prev payload = payload :: prev ∧
    handleInsertNotification (handleInsertNotification prev payload) payload =
      payload :: payload :: prev ∧
    handleInsertNotification prev payload ≠ prev := by
  refine ⟨rfl, rfl, ?_⟩
  intro h
  have hlen := congrArg List.length h
  simp [handleInsertNotification] at hlen

/-- C8 counterexample record. -/
def w8rec : Feedback :=
  ⟨"dup", 6, "Dup", "555", "t", "i", 2, 2, 2, 2, 2, 2, none⟩

/-- C8 counterexample: a notification whose record (same id, byte-identical
fields) is already stored does NOT leave the record set unchanged. -/
theorem claim_C8_counterexample :
    handleInsertNotification [w8rec] w8rec ≠ [w8rec] := by decide

theorem claim_C8_witness :
    handleInsertNotification [w8rec] w8rec = w8rec :: [w8rec] ∧
    handleInsertNotification [w8rec] w8rec ≠ [w8rec] :=
  ⟨(claim_C8 [w8rec] w8rec).1, (claim_C8 [w8rec] w8rec).2.2⟩

/-- C9 (amended): `validateForm` accepts exactly the submissions whose four
customer fields are non-empty and whose six scores are all non-zero — it
does NOT check the upper bound (or negativity), so out-of-range scores such
as 6 pass; and `handleSubmit` inserts nothing exactly when validation
fails. -/
theorem claim_C9 (c : CustomerData) (r : RatingData) :
    (validateForm c r = true ↔
      (c.name ≠ "" ∧ c.cpf ≠ "" ∧ c.phone ≠ "" ∧ c.instagram ≠ "" ∧
        ∀ s ∈ ratingScores r, s ≠ 0)) ∧
    (handleSubmit c r = none ↔ validateForm c r = false) := by
  constructor
  · unfold validateForm
    by_cases h1 : c.name = "" ∨ c.cpf = "" ∨ c.phone = "" ∨ c.instagram = ""
    · rw [if_pos h1]
      simp only [Bool.false_eq_true, false_iff]
      rintro ⟨hn, hc, hp, hi, -⟩
      rcases h1 with h | h | h | h
      · exact hn h
      · exact hc h
      · exact hp h
      · exact hi h
    · rw [if_neg h1]
      push_neg at h1
      obtain ⟨hn, hc, hp, hi⟩ := h1
      by_cases h2 : 0 < ((ratingScores r).filter (fun s => s = 0)).length
      · rw [if_pos h2]
        simp only [Bool.false_eq_true, false_iff]
        rintro ⟨-, -, -, -, hs⟩
        obtain ⟨x, hx⟩ := List.exists_mem_of_length_pos h2
        have := List.mem_filter.mp hx
        exact hs x this.1 (by simpa using this.2)
      · rw [if_neg h2]
        simp only [eq_self_iff_true, true_iff]
        refine ⟨hn, hc, hp, hi, ?_⟩
        intro s hs hs0
        apply h2
        have : s ∈ (ratingScores r).filter (fun x => x = 0) :=
          List.mem_filter.mpr ⟨hs, by simpa using hs0⟩
        exact List.length_pos.mpr (List.ne_nil_of_mem this)
  · unfold handleSubmit
    by_cases h : validateForm c r
    · rw [if_pos h]
      simp [h]
    · rw [if_neg h]
      have hf : validateForm c r = false := by
        cases hb : validateForm c r
        · rfl
        · exact absurd hb h
      simp [hf]

/-- C9 counterexample data: a score of `6` (outside `[1,5]`) with all
customer fields filled. -/
def w9cust : CustomerData := ⟨"Ana", "111", "999", "insta"⟩

def w9rat : RatingData := ⟨6, 1, 1, 1, 1, 1, ""⟩

/-- C9 counterexample: an out-of-range score passes validation and a row is
inserted — validation does not enforce the `[1,5]` range. -/
theorem claim_C9_counterexample :
    validateForm w9cust w9rat = true ∧
    (handleSubmit w9cust w9rat).isSome = true ∧
    ¬ validScore w9rat.foodQuality := by decide

theorem claim_C9_witness :
    (validateForm w9cust w9rat = true ↔
      (w9cust.name ≠ "" ∧ w9cust.cpf ≠ "" ∧ w9cust.phone ≠ "" ∧
        w9cust.instagram ≠ "" ∧ ∀ s ∈ ratingScores w9rat, s ≠ 0)) ∧
    (handleSubmit w9cust w9rat = none ↔ validateForm w9cust w9rat = false) :=
  claim_C9 w9cust w9rat
